import Mathlib

/-!
Verification development for the js-fea repository core: mesh-cell
canonicalization utilities (src/core.utils.js), the geometric cell set
hierarchy with its Jacobian kernels and shape functions (src/gcellset.js),
and the sparse assembly engine (system.vector source file).

JavaScript numbers are modelled as exact rationals where the code only
performs field operations, and as real numbers where pi or square roots
occur.  Fallible code (throw) is modelled with Option, none standing for a
raised fatal error.  Stateful code is modelled by explicit state passing.
-/

/- ===============================================================
   core.utils.js
   =============================================================== -/

/-- Translated from core.utils.js rotateLeft: JS computes
`i = (len + (offset % len)) % len` with the JS remainder operator (sign of
the dividend), which is Int.tmod, and then `out[j] = arr[(i+j) % len]`. -/
def rotateLeft (arr : List ℤ) (offset : ℤ) : List ℤ :=
  let len : ℤ := arr.length
  let i : ℤ := (len + offset.tmod len).tmod len
  (List.range arr.length).map (fun j => arr.getD ((i + Int.ofNat j).tmod len).toNat 0)

/-- Single step of the lodash reduce inside core.utils.js minIndex:
the accumulator holds the smallest value seen so far (initially the JS
Infinity, modelled as the top element of WithTop) and its index
(initially -1); an element strictly below the current best replaces it. -/
def minIndexStep (sofar : WithTop ℤ × ℤ) (p : ℕ × ℤ) : WithTop ℤ × ℤ :=
  if (p.2 : WithTop ℤ) < sofar.1 then ((p.2 : WithTop ℤ), (p.1 : ℤ)) else sofar

/-- Translated from core.utils.js minIndex (the branch without a custom
comparator): a reduce over the array with index, starting from
value = Infinity, index = -1. -/
def minIndex (vec : List ℤ) : ℤ :=
  (vec.enum.foldl minIndexStep ((⊤ : WithTop ℤ), (-1 : ℤ))).2

/-- Translated from core.utils.js normalizedCell: rotate the connectivity
list left by the index of its smallest entry. -/
def normalizedCell (conn : List ℤ) : List ℤ :=
  rotateLeft conn (minIndex conn)

/- ===============================================================
   system.vector (SparseSystemVector / ElementVector)
   =============================================================== -/

/-- Translated from the system.vector source: an ElementVector pairs a local
vector with a parallel 1-indexed equation-number array where 0 means the
entry has no destination. -/
structure ElementVector where
  vector : List ℚ
  eqnums : List ℕ
deriving DecidableEq

/-- One iteration of the forEach inside SparseSystemVector._assemble_: given
the destination (the sparse vector, modelled as a total map that is 0 at
unset positions, following the spec of SparseVector.at) and a pair of a
local index and its equation number, scatter-add the local value. -/
def scatterStep (vec : List ℚ) (d : ℕ → ℚ) (p : ℕ × ℕ) : ℕ → ℚ :=
  if p.2 ≠ 0 then
    fun idx => if idx = p.2 - 1 then d (p.2 - 1) + vec.getD p.1 0 else d idx
  else d

/-- The forEach over one ElementVector inside SparseSystemVector._assemble_. -/
def assembleEV (dest : ℕ → ℚ) (ev : ElementVector) : ℕ → ℚ :=
  ev.eqnums.enum.foldl (scatterStep ev.vector) dest

/-- The while loop of SparseSystemVector._assemble_: drain the ElementVector
source, scatter-adding each into the destination.  The second component
counts next() calls on the supplying sequence, the observable side effect
the spec mentions. -/
def assembleLoop : List ElementVector → (ℕ → ℚ) → ℕ → ((ℕ → ℚ) × ℕ)
  | [], dest, pulls => (dest, pulls)
  | ev :: rest, dest, pulls => assembleLoop rest (assembleEV dest ev) (pulls + 1)

/-- State of a SparseSystemVector instance: the global dimension, the not yet
consumed ElementVector sequence, the count of next() calls made so far, and
the memoized assembled result (null initially). -/
structure SparseSystemVector where
  dim : ℕ
  evs : List ElementVector
  pulls : ℕ
  cached : Option (ℕ → ℚ)

/-- Translated from SparseSystemVector.prototype.sparseVector: assemble on
first call (consuming the source sequence and caching the result), return
the cached sparse vector afterwards. -/
def SparseSystemVector.sparseVector (s : SparseSystemVector) :
    (ℕ → ℚ) × SparseSystemVector :=
  match s.cached with
  | some v => (v, s)
  | none =>
      let r := assembleLoop s.evs (fun _ => 0) s.pulls
      (r.1, { s with cached := some r.1, evs := [], pulls := r.2 })

/-- Translated from SparseSystemVector.prototype.toFull, with
SparseVector.toFull modelled from the spec: densify to a dimension-length
sequence with zeros at unreferenced positions. -/
def SparseSystemVector.toFull (s : SparseSystemVector) :
    List ℚ × SparseSystemVector :=
  let r := s.sparseVector
  ((List.range s.dim).map r.1, r.2)

/-- Claim-side formula for assembly, following the spec words: the
contribution of one ElementVector to global position idx is the sum of
vector[i] over the local indices i whose eqnum is nonzero and points at
idx (that is, eqnums[i] - 1 = idx). -/
def specContribution (ev : ElementVector) (idx : ℕ) : ℚ :=
  (ev.eqnums.enum.map
    (fun p => if p.2 ≠ 0 ∧ p.2 - 1 = idx then ev.vector.getD p.1 0 else 0)).sum

/-- Claim-side formula for the fully assembled global vector: every
ElementVector contributes additively. -/
def specAssembled (evs : List ElementVector) (idx : ℕ) : ℚ :=
  (evs.map (fun ev => specContribution ev idx)).sum

/- ===============================================================
   Assembly lemmas (claims C1, C8)
   =============================================================== -/

lemma assembleEV_go (vec : List ℚ) :
    ∀ (ens : List ℕ) (k : ℕ) (dest : ℕ → ℚ) (idx : ℕ),
      ((ens.enumFrom k).foldl (scatterStep vec) dest) idx
        = dest idx +
          ((ens.enumFrom k).map
            (fun p => if p.2 ≠ 0 ∧ p.2 - 1 = idx then vec.getD p.1 0 else 0)).sum := by
  intro ens
  induction ens with
  | nil => intro k dest idx; simp
  | cons e rest ih =>
      intro k dest idx
      show ((rest.enumFrom (k + 1)).foldl (scatterStep vec)
              (scatterStep vec dest (k, e))) idx = _
      rw [ih]
      by_cases he : e = 0
      · simp [scatterStep, he]
      · by_cases hidx : idx = e - 1
        · simp [scatterStep, he, hidx]
          ring
        · simp [scatterStep, he, hidx, Ne.symm hidx]

lemma assembleEV_spec (dest : ℕ → ℚ) (ev : ElementVector) (idx : ℕ) :
    assembleEV dest ev idx = dest idx + specContribution ev idx := by
  have h := assembleEV_go ev.vector ev.eqnums 0 dest idx
  exact h

lemma assembleLoop_spec :
    ∀ (evs : List ElementVector) (dest : ℕ → ℚ) (p : ℕ),
      (assembleLoop evs dest p).2 = p + evs.length ∧
      ∀ idx, (assembleLoop evs dest p).1 idx = dest idx + specAssembled evs idx := by
  intro evs
  induction evs with
  | nil => intro dest p; simp [assembleLoop, specAssembled]
  | cons ev rest ih =>
      intro dest p
      have h := ih (assembleEV dest ev) (p + 1)
      refine ⟨by simp only [assembleLoop, List.length_cons]; rw [h.1]; omega, ?_⟩
      intro idx
      have h2 := h.2 idx
      simp only [assembleLoop] at h2 ⊢
      rw [h2, assembleEV_spec]
      simp [specAssembled]
      ring

/-- Claim C1: assembling the global-dimension-3 system from
ev1 = (vector [1,2], eqnums [1,2]) and ev2 = (vector [3,4], eqnums [2,0])
yields toFull() = [1, 5, 0]; and in general the assembled global vector at
every position idx is the accumulated sum, over all ElementVectors and all
local indices i with eqnums[i] different from 0 and eqnums[i] - 1 = idx, of
vector[i] — entries with eqnum 0 are dropped. -/
theorem assembly_scatter_add :
    ((SparseSystemVector.toFull ⟨3, [⟨[1,2],[1,2]⟩, ⟨[3,4],[2,0]⟩], 0, none⟩).1
        = [1, 5, 0])
    ∧ ∀ (d : ℕ) (evs : List ElementVector) (idx : ℕ),
        (SparseSystemVector.sparseVector ⟨d, evs, 0, none⟩).1 idx
          = specAssembled evs idx := by
  constructor
  · norm_num [SparseSystemVector.toFull, SparseSystemVector.sparseVector, assembleLoop,
      assembleEV, scatterStep, List.enum, List.enumFrom, List.range_succ, List.range_zero]
  · intro d evs idx
    have h := (assembleLoop_spec evs (fun _ => 0) 0).2 idx
    simpa [SparseSystemVector.sparseVector] using h

/-- Claim C8: starting from a freshly constructed SparseSystemVector (cache
null, no pulls yet), the first sparseVector() call assembles, drains the
supplying sequence exactly once (pulls = number of ElementVectors) and
caches the result; the second call returns the identical cached vector and
leaves the state untouched. -/
theorem sparseVector_memoized (d : ℕ) (evs : List ElementVector) :
    ((⟨d, evs, 0, none⟩ : SparseSystemVector).sparseVector.2.cached
        = some (⟨d, evs, 0, none⟩ : SparseSystemVector).sparseVector.1)
    ∧ (⟨d, evs, 0, none⟩ : SparseSystemVector).sparseVector.2.pulls = evs.length
    ∧ (⟨d, evs, 0, none⟩ : SparseSystemVector).sparseVector.2.evs = []
    ∧ (⟨d, evs, 0, none⟩ : SparseSystemVector).sparseVector.2.sparseVector
        = ((⟨d, evs, 0, none⟩ : SparseSystemVector).sparseVector.1,
           (⟨d, evs, 0, none⟩ : SparseSystemVector).sparseVector.2) := by
  refine ⟨rfl, ?_, rfl, rfl⟩
  simpa [SparseSystemVector.sparseVector] using (assembleLoop_spec evs (fun _ => 0) 0).1

/- ===============================================================
   Canonicalization lemmas (claim C6)
   =============================================================== -/

lemma tmod_bounds (a b : ℤ) (h : 0 < b) : -b < a.tmod b ∧ a.tmod b < b := by
  refine ⟨?_, Int.tmod_lt_of_pos a h⟩
  rcases le_or_lt 0 a with ha | ha
  · have h2 : 0 ≤ a.tmod b := Int.tmod_nonneg b ha
    omega
  · have hneg : (-a).tmod b = -(a.tmod b) := by
      simp only [Int.tmod_def, Int.neg_tdiv]
      ring
    have h2 : (-a).tmod b < b := Int.tmod_lt_of_pos (-a) h
    omega

lemma effShift_bounds (len : ℕ) (hlen : 0 < len) (offset : ℤ) :
    0 ≤ ((len : ℤ) + offset.tmod len).tmod len ∧
      ((len : ℤ) + offset.tmod len).tmod len < len := by
  have hb : (0 : ℤ) < (len : ℤ) := by exact_mod_cast hlen
  have h1 := tmod_bounds offset len hb
  have hpos : 0 ≤ (len : ℤ) + offset.tmod len := by omega
  refine ⟨Int.tmod_nonneg _ hpos, Int.tmod_lt_of_pos _ hb⟩

lemma rotateLeft_length (arr : List ℤ) (offset : ℤ) :
    (rotateLeft arr offset).length = arr.length := by
  unfold rotateLeft
  rw [List.length_map, List.length_range]

lemma rotateLeft_getElem (arr : List ℤ) (offset : ℤ) (n : ℕ)
    (hn : n < (rotateLeft arr offset).length) :
    (rotateLeft arr offset)[n]
      = arr.getD
          (((((arr.length : ℤ) + offset.tmod arr.length).tmod arr.length) + (n : ℤ)).tmod
            arr.length).toNat 0 := by
  unfold rotateLeft
  rw [List.getElem_map, List.getElem_range]
  norm_cast

lemma rotateLeft_eq_rotate (arr : List ℤ) (hne : arr ≠ []) (offset : ℤ) :
    rotateLeft arr offset
      = arr.rotate (((arr.length : ℤ) + offset.tmod arr.length).tmod arr.length).toNat := by
  have hlen : 0 < arr.length := List.length_pos.mpr hne
  obtain ⟨h0, h1⟩ := effShift_bounds arr.length hlen offset
  apply List.ext_getElem
  · rw [rotateLeft_length, List.length_rotate]
  intro n hn₁ hn₂
  rw [rotateLeft_getElem arr offset n hn₁, List.getElem_rotate]
  have hmodlt : ((n + (((arr.length : ℤ) + offset.tmod arr.length).tmod arr.length).toNat)
      % arr.length) < arr.length := Nat.mod_lt _ hlen
  have hcast : ((((arr.length : ℤ) + offset.tmod arr.length).tmod arr.length) + (n : ℤ)).tmod
        (arr.length : ℤ)
      = (((n + ((((arr.length : ℤ) + offset.tmod arr.length).tmod arr.length).toNat))
          % arr.length : ℕ) : ℤ) := by
    rw [Int.tmod_eq_emod (by omega) (by positivity)]
    rw [show ((((arr.length : ℤ) + offset.tmod arr.length).tmod arr.length) + (n : ℤ))
        = (((n + (((arr.length : ℤ) + offset.tmod arr.length).tmod arr.length).toNat : ℕ)) : ℤ)
      by push_cast; omega]
    push_cast
    rfl
  rw [hcast, Int.toNat_ofNat, List.getD_eq_getElem arr 0 hmodlt]

lemma foldl_minIndexStep_stay :
    ∀ (l : List ℤ) (k : ℕ) (v : WithTop ℤ) (i : ℤ),
      (∀ x ∈ l, ¬((x : WithTop ℤ) < v)) →
      (l.enumFrom k).foldl minIndexStep (v, i) = (v, i) := by
  intro l
  induction l with
  | nil => intro k v i _; rfl
  | cons a as ih =>
      intro k v i h
      show (as.enumFrom (k + 1)).foldl minIndexStep (minIndexStep (v, i) (k, a)) = (v, i)
      have ha : ¬((a : WithTop ℤ) < v) := h a (by simp)
      rw [show minIndexStep (v, i) (k, a) = (v, i) by simp [minIndexStep, ha]]
      exact ih (k + 1) v i (fun x hx => h x (by simp [hx]))

lemma foldl_minIndexStep_finds :
    ∀ (l : List ℤ) (j k : ℕ) (v : WithTop ℤ) (i : ℤ),
      j < l.length →
      ((l.getD j 0 : ℤ) : WithTop ℤ) < v →
      (∀ t, t < l.length → t ≠ j → l.getD j 0 < l.getD t 0) →
      ((l.enumFrom k).foldl minIndexStep (v, i)).2 = ((k : ℤ) + (j : ℤ)) := by
  intro l
  induction l with
  | nil => intro j k v i hj; exact absurd hj (by simp)
  | cons a as ih =>
      intro j k v i hj hlt hmin
      show (((as.enumFrom (k + 1)).foldl minIndexStep (minIndexStep (v, i) (k, a))).2 = _)
      match j with
      | 0 =>
          have ha : ((a : ℤ) : WithTop ℤ) < v := by simpa using hlt
          rw [show minIndexStep (v, i) (k, a) = ((a : WithTop ℤ), (k : ℤ)) by
            simp [minIndexStep, ha]]
          have hstay : ∀ x ∈ as, ¬((x : WithTop ℤ) < (a : WithTop ℤ)) := by
            intro x hx
            obtain ⟨t, ht, rfl⟩ := List.mem_iff_getElem.mp hx
            have h2 : t + 1 < (a :: as).length := by simpa using ht
            have hlt2 := hmin (t + 1) h2 (by omega)
            have hlt3 : a < as[t] := by
              rw [show (a :: as).getD 0 0 = a from rfl,
                show (a :: as).getD (t + 1) 0 = as.getD t 0 from rfl,
                List.getD_eq_getElem as 0 ht] at hlt2
              exact hlt2
            rw [WithTop.coe_lt_coe]
            exact not_lt.mpr hlt3.le
          rw [foldl_minIndexStep_stay as (k + 1) _ _ hstay]
          simp
      | j' + 1 =>
          have hj' : j' < as.length := by simpa using hj
          have hgd : (a :: as).getD (j' + 1) 0 = as.getD j' 0 := rfl
          have hmin' : ∀ t, t < as.length → t ≠ j' → as.getD j' 0 < as.getD t 0 := by
            intro t ht htj
            have h2 : t + 1 < (a :: as).length := by simpa using ht
            have := hmin (t + 1) h2 (by omega)
            exact this
          by_cases hav : ((a : ℤ) : WithTop ℤ) < v
          · rw [show minIndexStep (v, i) (k, a) = ((a : WithTop ℤ), (k : ℤ)) by
              simp [minIndexStep, hav]]
            have hja : as.getD j' 0 < a := by
              have h0 : (0 : ℕ) < (a :: as).length := by simp
              have := hmin 0 h0 (by omega)
              simpa [hgd] using this
            have := ih j' (k + 1) (a : WithTop ℤ) (k : ℤ) hj'
              (by rw [WithTop.coe_lt_coe]; exact hja) hmin'
            rw [this]
            push_cast
            ring
          · rw [show minIndexStep (v, i) (k, a) = (v, i) by simp [minIndexStep, hav]]
            have hlt' : ((as.getD j' 0 : ℤ) : WithTop ℤ) < v := by
              simpa [hgd] using hlt
            have := ih j' (k + 1) v i hj' hlt' hmin'
            rw [this]
            push_cast
            ring

/-- A list has a unique strict minimum at index j: every other in-range
index holds a strictly larger value.  This is exactly the situation in
which canonicalization by first-minimum rotation is well defined. -/
def uniqueMinAt (c : List ℤ) (j : ℕ) : Prop :=
  j < c.length ∧ ∀ t, t < c.length → t ≠ j → c.getD j 0 < c.getD t 0

instance (c : List ℤ) (j : ℕ) : Decidable (uniqueMinAt c j) := by
  unfold uniqueMinAt
  infer_instance

lemma minIndex_eq (c : List ℤ) (j : ℕ) (h : uniqueMinAt c j) :
    minIndex c = (j : ℤ) := by
  unfold minIndex
  have he : c.enum = c.enumFrom 0 := rfl
  rw [he]
  have hfind := foldl_minIndexStep_finds c j 0 ⊤ (-1) h.1 (WithTop.coe_lt_top _) h.2
  simpa using hfind

lemma getD_rotate (c : List ℤ) (k n : ℕ) (hn : n < c.length) :
    (c.rotate k).getD n 0 = c.getD ((n + k) % c.length) 0 := by
  have hlen : 0 < c.length := lt_of_le_of_lt (Nat.zero_le n) hn
  have h1 : n < (c.rotate k).length := by rw [List.length_rotate]; exact hn
  have h2 : (n + k) % c.length < c.length := Nat.mod_lt _ hlen
  rw [List.getD_eq_getElem _ _ h1, List.getD_eq_getElem _ _ h2]
  exact List.getElem_rotate c k n h1

lemma uniqueMinAt_rotate (c : List ℤ) (j k m : ℕ) (h : uniqueMinAt c j)
    (hm : m < c.length) (hmk : (m + k) % c.length = j) :
    uniqueMinAt (c.rotate k) m := by
  have hlen : 0 < c.length := lt_of_le_of_lt (Nat.zero_le j) h.1
  refine ⟨by rw [List.length_rotate]; exact hm, ?_⟩
  intro t ht htm
  rw [List.length_rotate] at ht
  rw [getD_rotate c k m hm, getD_rotate c k t ht, hmk]
  apply h.2
  · exact Nat.mod_lt _ hlen
  · intro heq
    apply htm
    have hmod : (t + k) % c.length = (m + k) % c.length := by rw [heq, hmk]
    have : t % c.length = m % c.length := Nat.ModEq.add_right_cancel' k hmod
    rwa [Nat.mod_eq_of_lt ht, Nat.mod_eq_of_lt hm] at this

lemma rotateLeft_coe_of_lt (c : List ℤ) (j : ℕ) (hj : j < c.length) :
    rotateLeft c (j : ℤ) = c.rotate j := by
  have hlen : 0 < c.length := lt_of_le_of_lt (Nat.zero_le j) hj
  have hne : c ≠ [] := by
    intro hc
    rw [hc] at hlen
    exact absurd hlen (by simp)
  rw [rotateLeft_eq_rotate c hne]
  congr 1
  have hb : (0 : ℤ) < (c.length : ℤ) := by exact_mod_cast hlen
  have hjlt : (j : ℤ) < (c.length : ℤ) := by exact_mod_cast hj
  have h1 : (j : ℤ).tmod (c.length : ℤ) = (j : ℤ) := by
    rw [Int.tmod_eq_emod (by positivity) hb.le]
    exact Int.emod_eq_of_lt (by positivity) hjlt
  rw [h1]
  rw [Int.tmod_eq_emod (by positivity) hb.le]
  rw [Int.add_emod_self_left, Int.emod_eq_of_lt (by positivity) hjlt, Int.toNat_natCast]

/-- Counterexample to claim C6 as stated: the cell [1,2,1,3] has a duplicated
minimal entry; rotating it left by 2 gives [1,3,1,2], whose canonical form is
itself, while the canonical form of the original is [1,2,1,3]. -/
theorem normalizedCell_rotation_counterexample :
    normalizedCell (rotateLeft [1, 2, 1, 3] 2) ≠ normalizedCell [1, 2, 1, 3] := by
  decide

/-- Claim C6 (amended): canonicalization is invariant under the cyclic
rotations produced by rotateLeft for every non-empty cell whose minimal
entry occurs exactly once (uniqueMinAt); in particular
normalizedCell [3,1,2] = [1,2,3]. -/
theorem normalizedCell_rotation_invariant :
    (∀ (c : List ℤ) (j : ℕ) (r : ℤ), uniqueMinAt c j →
      normalizedCell (rotateLeft c r) = normalizedCell c)
    ∧ normalizedCell [3, 1, 2] = [1, 2, 3] := by
  constructor
  · intro c j r h
    have hlen : 0 < c.length := lt_of_le_of_lt (Nat.zero_le j) h.1
    have hne : c ≠ [] := by
      intro hc
      rw [hc] at hlen
      exact absurd hlen (by simp)
    obtain ⟨h0, h1⟩ := effShift_bounds c.length hlen r
    set s : ℕ := (((c.length : ℤ) + r.tmod c.length).tmod c.length).toNat with hs
    have hrot : rotateLeft c r = c.rotate s := rotateLeft_eq_rotate c hne r
    have hslt : s < c.length := by omega
    set m : ℕ := (j + c.length - s) % c.length with hmdef
    have hm : m < c.length := Nat.mod_lt _ hlen
    have hmk : (m + s) % c.length = j := by
      rw [hmdef, Nat.mod_add_mod]
      rw [Nat.sub_add_cancel (by omega : s ≤ j + c.length)]
      rw [Nat.add_mod_right]
      exact Nat.mod_eq_of_lt h.1
    have h2 : uniqueMinAt (c.rotate s) m := uniqueMinAt_rotate c j s m h hm hmk
    have hmin2 : minIndex (c.rotate s) = (m : ℤ) := minIndex_eq _ m h2
    have hmin1 : minIndex c = (j : ℤ) := minIndex_eq c j h
    rw [hrot]
    unfold normalizedCell
    rw [hmin2, hmin1]
    rw [rotateLeft_coe_of_lt c j h.1]
    rw [rotateLeft_coe_of_lt (c.rotate s) m (by rw [List.length_rotate]; exact hm)]
    rw [List.rotate_rotate]
    rw [← List.rotate_mod c (s + m)]
    rw [show (s + m) % c.length = j by rw [Nat.add_comm]; exact hmk]
  · decide

/-- Witness for the amended claim C6 at the example of the spec: the cell
[3,1,2] has a unique minimum (at index 1) and rotating it by 1 does not
change its canonical form. -/
theorem normalizedCell_rotation_invariant_witness :
    normalizedCell (rotateLeft [3, 1, 2] 1) = normalizedCell [3, 1, 2] :=
  normalizedCell_rotation_invariant.1 [3, 1, 2] 1 1 (by decide)

/- ===============================================================
   Numeric primitives (external collaborators of gcellset.js)
   =============================================================== -/

/-- Modelled from the spec: the numeric transpose primitive (core.numeric is
not under src/); external collaborator assumed correct, here the standard
matrix transpose on row lists, reading missing entries as 0. -/
def transpose {α : Type} [CommRing α] (m : List (List α)) : List (List α) :=
  (List.range ((m.headD []).length)).map (fun j => m.map (fun row => row.getD j 0))

/-- Modelled from the spec: numeric size of a matrix, the pair of the row
count and the column count of the first row. -/
def size {α : Type} (m : List (List α)) : ℕ × ℕ :=
  (m.length, (m.headD []).length)

/-- Modelled from the spec: numeric column extraction. -/
def nthColumn {α : Type} [CommRing α] (m : List (List α)) (j : ℕ) : List α :=
  m.map (fun row => row.getD j 0)

/-- Modelled from the spec: numeric dot for matrix times matrix. -/
def dot {α : Type} [CommRing α] (a b : List (List α)) : List (List α) :=
  a.map (fun row =>
    (List.range ((b.headD []).length)).map (fun j =>
      (row.enum.map (fun p => p.2 * (b.getD p.1 []).getD j 0)).sum))

/-- Modelled from the spec: numeric dot for matrix times vector. -/
def dotMV {α : Type} [CommRing α] (m : List (List α)) (v : List α) : List α :=
  m.map (fun row => (row.enum.map (fun p => p.2 * v.getD p.1 0)).sum)

/-- Modelled from the spec: numeric elementwise multiplication of a matrix
by a scalar (the use numeric mul is put to in H8.bfundpar). -/
def mulScalar {α : Type} [CommRing α] (m : List (List α)) (c : α) : List (List α) :=
  m.map (fun r => r.map (fun t => t * c))

/-- Modelled from the spec: the 3 by 3 determinant used by manifold-3
jacobianVolumn (numeric det, external collaborator assumed correct). -/
def det3 {α : Type} [CommRing α] (m : List (List α)) : α :=
  let a : ℕ → ℕ → α := fun i j => (m.getD i []).getD j 0
  a 0 0 * (a 1 1 * a 2 2 - a 1 2 * a 2 1)
    - a 0 1 * (a 1 0 * a 2 2 - a 1 2 * a 2 0)
    + a 0 2 * (a 1 0 * a 2 1 - a 1 1 * a 2 0)

/-- Modelled from the spec: the Euclidean norm primitive of the numeric
library. -/
noncomputable def normV (v : List ℝ) : ℝ :=
  Real.sqrt ((v.map (fun t => t * t)).sum)

/-- Modelled from the spec: feutils skewmat (feutils.js is not under src/),
the skew-symmetric 3 by 3 matrix of a 3-vector, whose product with a second
vector is the cross product. -/
def skewmat {α : Type} [CommRing α] (v : List α) : List (List α) :=
  [[0, -(v.getD 2 0), v.getD 1 0],
   [v.getD 2 0, 0, -(v.getD 0 0)],
   [-(v.getD 1 0), v.getD 0 0, 0]]

/- ===============================================================
   gcellset.js data model
   =============================================================== -/

/-- The concrete GCellSet variants whose numeric kernels appear in
gcellset.js. -/
inductive GCellVariant where
  | P1
  | L2
  | Q4
  | H8
deriving DecidableEq

/-- Translated from the cellSize() overrides in gcellset.js. -/
def GCellVariant.cellSize : GCellVariant → ℕ
  | .P1 => 1
  | .L2 => 2
  | .Q4 => 4
  | .H8 => 8

/-- Translated from the dim() overrides of the manifold classes each
concrete variant extends. -/
def GCellVariant.dim : GCellVariant → ℕ
  | .P1 => 0
  | .L2 => 1
  | .Q4 => 2
  | .H8 => 3

/-- Translated from the type() overrides in gcellset.js. -/
def GCellVariant.typeStr : GCellVariant → String
  | .P1 => "P1"
  | .L2 => "L2"
  | .Q4 => "Q4"
  | .H8 => "H8"

/-- Modelled from the spec: the Topology of geometry.topology.js is not under
src/.  The claims settled here need the manifold dimension, the per-dimension
cell lists (dimension k stored at position k), the cell size at a dimension,
and the canonical (rotation-normalized) form. -/
structure Topology where
  dim : ℕ
  cellsByDim : List (List (List ℤ))
deriving DecidableEq

/-- Modelled from the spec: cellSizeAt(k), the arity of the cells stored at
dimension k. -/
def Topology.getCellSizeInDim (t : Topology) (d : ℕ) : ℕ :=
  ((t.cellsByDim.getD d []).headD []).length

/-- Modelled from the spec: canonicalForm(), rewriting every cell to its
rotation-canonical form. -/
def Topology.normalized (t : Topology) : Topology :=
  ⟨t.dim, t.cellsByDim.map (fun cells => cells.map normalizedCell)⟩

/-- The otherDimension option of a GCellSet: a numeric constant or a JS
function of (conn, N, x).  A JS function value is compared with strict
equality by reference, so the model carries a ref tag for object identity;
the behavioural part takes Option arguments because GCellSet.equals invokes
otherDimension() with all three arguments undefined (modelled as none). -/
inductive OtherDim where
  | const (c : ℝ)
  | fn (ref : ℕ) (f : Option (List ℤ) → Option (List (List ℝ)) → Option (List (List ℝ)) → ℝ)

/-- State of a constructed GCellSet: the concrete variant providing type(),
cellSize() and dim(), the axisSymm flag, the otherDimension option and the
owned topology. -/
structure GCellSet where
  variant : GCellVariant
  axisSymm : Bool
  otherDimension : OtherDim
  topology : Topology

/-- Translated from the GCellSet constructor in gcellset.js: after resolving
the options, compare the cell size of the topology at its own dimension with
the variant cellSize() and the topology dimension with the variant dim();
a mismatch of either throws (none) before the instance exists, otherwise the
instance stores the topology. -/
def GCellSet.construct (v : GCellVariant) (axisSymm : Bool) (od : OtherDim)
    (topo : Topology) : Option GCellSet :=
  if topo.getCellSizeInDim topo.dim ≠ v.cellSize then none
  else if topo.dim ≠ v.dim then none
  else some ⟨v, axisSymm, od, topo⟩

/-- Translated from GCellSet.prototype.otherDimension: a function-valued
option is invoked with (conn, N, x), a numeric one is returned as is. -/
def GCellSet.otherDimensionAt (g : GCellSet) (conn : List ℤ)
    (N x : List (List ℝ)) : ℝ :=
  match g.otherDimension with
  | .const c => c
  | .fn _ f => f (some conn) (some N) (some x)

/-- Translated from the call this.otherDimension() inside
GCellSet.prototype.equals: the method is invoked with no arguments, so a
function-valued option is evaluated at three undefined arguments. -/
def odCallNoArgs (od : OtherDim) : ℝ :=
  match od with
  | .const c => c
  | .fn _ f => f none none none

/-- The first physical coordinate r interpolated at the quadrature point:
dot(transpose(N), x)[0][0], appearing in every axisymmetric branch.  The
manifold-0 jacobianVolumn computes it with numeric mul instead of numeric
dot; both are modelled by the matrix product, as the spec describes the
interpolation. -/
noncomputable def xyzFirst (N x : List (List ℝ)) : ℝ :=
  ((dot (transpose N) x).getD 0 []).getD 0 0

/-- Translated from GCellSetManifold0.prototype.jacobianCurve. -/
noncomputable def GCellSetManifold0.jacobianCurve (g : GCellSet) (conn : List ℤ)
    (N J x : List (List ℝ)) : ℝ :=
  if g.axisSymm then 1 * 2 * Real.pi * xyzFirst N x
  else 1 * g.otherDimensionAt conn N x

/-- Translated from GCellSetManifold0.prototype.jacobianVolumn. -/
noncomputable def GCellSetManifold0.jacobianVolumn (g : GCellSet) (conn : List ℤ)
    (N J x : List (List ℝ)) : ℝ :=
  if g.axisSymm then
    GCellSetManifold0.jacobianCurve g conn N J x * 2 * Real.pi * xyzFirst N x
      * g.otherDimensionAt conn N x
  else
    GCellSetManifold0.jacobianCurve g conn N J x * g.otherDimensionAt conn N x

/-- Translated from GCellSetManifold1.prototype.jacobianCurve: the norm of
the first column of J (the first row of its transpose). -/
noncomputable def GCellSetManifold1.jacobianCurve (g : GCellSet) (conn : List ℤ)
    (N J x : List (List ℝ)) : ℝ :=
  normV ((transpose J).getD 0 [])

/-- Translated from GCellSetManifold1.prototype.jacobianVolumn. -/
noncomputable def GCellSetManifold1.jacobianVolumn (g : GCellSet) (conn : List ℤ)
    (N J x : List (List ℝ)) : ℝ :=
  if g.axisSymm then
    GCellSetManifold1.jacobianCurve g conn N J x * 2 * Real.pi * xyzFirst N x
      * g.otherDimensionAt conn N x
  else
    GCellSetManifold1.jacobianCurve g conn N J x * g.otherDimensionAt conn N x

/-- Translated from GCellSetManifold2.prototype.jacobianSurface: with two
tangent columns, the 2 by 2 determinant when the spatial dimension equals
the tangent count, otherwise the norm of the skew matrix of the first
column applied to the second; any other tangent count throws. -/
noncomputable def GCellSetManifold2.jacobianSurface (g : GCellSet) (conn : List ℤ)
    (N J x : List (List ℝ)) : Option ℝ :=
  let sdim := (size J).1
  let ntan := (size J).2
  if ntan = 2 then
    if sdim = ntan then
      some ((J.getD 0 []).getD 0 0 * (J.getD 1 []).getD 1 0
        - (J.getD 1 []).getD 0 0 * (J.getD 0 []).getD 1 0)
    else
      some (normV (dotMV (skewmat (nthColumn J 0)) (nthColumn J 1)))
  else none

/-- Translated from GCellSetManifold2.prototype.jacobianVolumn: the surface
Jacobian times 2 pi r when axisymmetric, otherwise times otherDimension.  A
thrown jacobianSurface propagates. -/
noncomputable def GCellSetManifold2.jacobianVolumn (g : GCellSet) (conn : List ℤ)
    (N J x : List (List ℝ)) : Option ℝ :=
  (GCellSetManifold2.jacobianSurface g conn N J x).map (fun S =>
    if g.axisSymm then S * 2 * Real.pi * xyzFirst N x
    else S * g.otherDimensionAt conn N x)

/-- Translated from GCellSetManifold3.prototype.jacobianVolumn: the source
reads both sdim and ntan from tmp[0], the row count of size(J), and returns
det(J) when that count is 3, throwing otherwise. -/
noncomputable def GCellSetManifold3.jacobianVolumn (g : GCellSet) (conn : List ℤ)
    (N J x : List (List ℝ)) : Option ℝ :=
  let ntan := (size J).1
  if ntan = 3 then some (det3 J) else none

/- ===============================================================
   Shape functions (claims C4, C5)
   =============================================================== -/

/-- Translated from L2.prototype.bfun. -/
def L2.bfun (paramCoords : List ℚ) : List (List ℚ) :=
  [[0.5 * (1 - paramCoords.getD 0 0)],
   [0.5 * (1 + paramCoords.getD 0 0)]]

/-- Translated from L2.prototype.bfundpar. -/
def L2.bfundpar (paramCoords : List ℚ) : List (List ℚ) :=
  [[-0.5],
   [0.5]]

/-- Translated from Q4.prototype.bfun. -/
def Q4.bfun (paramCoords : List ℚ) : List (List ℚ) :=
  let one_minus_xi := 1 - paramCoords.getD 0 0
  let one_plus_xi := 1 + paramCoords.getD 0 0
  let one_minus_eta := 1 - paramCoords.getD 1 0
  let one_plus_eta := 1 + paramCoords.getD 1 0
  [[0.25 * one_minus_xi * one_minus_eta],
   [0.25 * one_plus_xi * one_minus_eta],
   [0.25 * one_plus_xi * one_plus_eta],
   [0.25 * one_minus_xi * one_plus_eta]]

/-- Translated from Q4.prototype.bfundpar. -/
def Q4.bfundpar (paramCoords : List ℚ) : List (List ℚ) :=
  let xi := paramCoords.getD 0 0
  let eta := paramCoords.getD 1 0
  [[-(1 - eta) * 0.25, -(1 - xi) * 0.25],
   [(1 - eta) * 0.25, -(1 + xi) * 0.25],
   [(1 + eta) * 0.25, (1 + xi) * 0.25],
   [-(1 + eta) * 0.25, (1 - xi) * 0.25]]

/-- Translated from H8.prototype.bfun. -/
def H8.bfun (paramCoords : List ℚ) : List (List ℚ) :=
  let one_minus_xi := 1 - paramCoords.getD 0 0
  let one_minus_eta := 1 - paramCoords.getD 1 0
  let one_minus_theta := 1 - paramCoords.getD 2 0
  let one_plus_xi := 1 + paramCoords.getD 0 0
  let one_plus_eta := 1 + paramCoords.getD 1 0
  let one_plus_theta := 1 + paramCoords.getD 2 0
  [[0.125 * one_minus_xi * one_minus_eta * one_minus_theta],
   [0.125 * one_plus_xi * one_minus_eta * one_minus_theta],
   [0.125 * one_plus_xi * one_plus_eta * one_minus_theta],
   [0.125 * one_minus_xi * one_plus_eta * one_minus_theta],
   [0.125 * one_minus_xi * one_minus_eta * one_plus_theta],
   [0.125 * one_plus_xi * one_minus_eta * one_plus_theta],
   [0.125 * one_plus_xi * one_plus_eta * one_plus_theta],
   [0.125 * one_minus_xi * one_plus_eta * one_plus_theta]]

/-- Translated from H8.prototype.bfundpar: a 3 by 8 array of derivative
values, transposed and scaled by 0.125 through the numeric library. -/
def H8.bfundpar (paramCoords : List ℚ) : List (List ℚ) :=
  let one_minus_xi := 1 - paramCoords.getD 0 0
  let one_minus_eta := 1 - paramCoords.getD 1 0
  let one_minus_theta := 1 - paramCoords.getD 2 0
  let one_plus_xi := 1 + paramCoords.getD 0 0
  let one_plus_eta := 1 + paramCoords.getD 1 0
  let one_plus_theta := 1 + paramCoords.getD 2 0
  let val : List (List ℚ) :=
    [[-one_minus_eta * one_minus_theta,
      one_minus_eta * one_minus_theta,
      one_plus_eta * one_minus_theta,
      -one_plus_eta * one_minus_theta,
      -one_minus_eta * one_plus_theta,
      one_minus_eta * one_plus_theta,
      one_plus_eta * one_plus_theta,
      -one_plus_eta * one_plus_theta],
     [-one_minus_xi * one_minus_theta,
      -one_plus_xi * one_minus_theta,
      one_plus_xi * one_minus_theta,
      one_minus_xi * one_minus_theta,
      -one_minus_xi * one_plus_theta,
      -one_plus_xi * one_plus_theta,
      one_plus_xi * one_plus_theta,
      one_minus_xi * one_plus_theta],
     [-one_minus_xi * one_minus_eta,
      -one_plus_xi * one_minus_eta,
      -one_plus_xi * one_plus_eta,
      -one_minus_xi * one_plus_eta,
      one_minus_xi * one_minus_eta,
      one_plus_xi * one_minus_eta,
      one_plus_xi * one_plus_eta,
      one_minus_xi * one_plus_eta]]
  mulScalar (transpose val) 0.125

/-- Claim-side quantity for C4: the sum of all entries of a shape function
column vector. -/
def sumMat {α : Type} [CommRing α] (m : List (List α)) : α :=
  (m.map (fun r => r.sum)).sum

/-- Claim-side quantity for C5: the sum over all shape functions of the
derivative entries along parametric axis j. -/
def colSum {α : Type} [CommRing α] (m : List (List α)) (j : ℕ) : α :=
  (m.map (fun r => r.getD j 0)).sum

/-- Claim C4: each concrete variant satisfies the partition of unity at
every parametric point (L2 over a 1-coordinate point, Q4 over 2, H8 over 3),
and L2 at 0 gives [0.5, 0.5], Q4 at (0,0) gives four entries 0.25, H8 at
(0,0,0) gives eight entries 0.125. -/
theorem bfun_partition_of_unity :
    (∀ xi : ℚ, sumMat (L2.bfun [xi]) = 1)
    ∧ (∀ xi eta : ℚ, sumMat (Q4.bfun [xi, eta]) = 1)
    ∧ (∀ xi eta theta : ℚ, sumMat (H8.bfun [xi, eta, theta]) = 1)
    ∧ L2.bfun [0] = [[0.5], [0.5]]
    ∧ Q4.bfun [0, 0] = [[0.25], [0.25], [0.25], [0.25]]
    ∧ H8.bfun [0, 0, 0]
        = [[0.125], [0.125], [0.125], [0.125], [0.125], [0.125], [0.125], [0.125]] := by
  refine ⟨?_, ?_, ?_, ?_, ?_, ?_⟩
  · intro xi
    simp [L2.bfun, sumMat]
    ring
  · intro xi eta
    simp [Q4.bfun, sumMat]
    ring
  · intro xi eta theta
    simp [H8.bfun, sumMat]
    ring
  · norm_num [L2.bfun]
  · norm_num [Q4.bfun]
  · norm_num [H8.bfun]

/-- Claim C5: each variant bfundpar is a cellSize by dim matrix whose column
sums (over all shape functions, per parametric axis) are exactly 0, at every
parametric point. -/
theorem bfundpar_columns_sum_zero :
    (∀ xi : ℚ, (L2.bfundpar [xi]).length = 2
      ∧ (∀ r ∈ L2.bfundpar [xi], r.length = 1)
      ∧ colSum (L2.bfundpar [xi]) 0 = 0)
    ∧ (∀ xi eta : ℚ, (Q4.bfundpar [xi, eta]).length = 4
      ∧ (∀ r ∈ Q4.bfundpar [xi, eta], r.length = 2)
      ∧ colSum (Q4.bfundpar [xi, eta]) 0 = 0
      ∧ colSum (Q4.bfundpar [xi, eta]) 1 = 0)
    ∧ (∀ xi eta theta : ℚ, (H8.bfundpar [xi, eta, theta]).length = 8
      ∧ (∀ r ∈ H8.bfundpar [xi, eta, theta], r.length = 3)
      ∧ colSum (H8.bfundpar [xi, eta, theta]) 0 = 0
      ∧ colSum (H8.bfundpar [xi, eta, theta]) 1 = 0
      ∧ colSum (H8.bfundpar [xi, eta, theta]) 2 = 0) := by
  refine ⟨?_, ?_, ?_⟩
  · intro xi
    refine ⟨rfl, ?_, by simp [L2.bfundpar, colSum]; try ring⟩
    intro r hr
    simp [L2.bfundpar] at hr
    rcases hr with h | h <;> subst h <;> rfl
  · intro xi eta
    refine ⟨rfl, ?_, by simp [Q4.bfundpar, colSum]; try ring,
      by simp [Q4.bfundpar, colSum]; try ring⟩
    intro r hr
    simp [Q4.bfundpar] at hr
    rcases hr with h | h | h | h <;> subst h <;> rfl
  · intro xi eta theta
    refine ⟨by simp [H8.bfundpar, mulScalar, transpose], ?_,
      by simp [H8.bfundpar, mulScalar, transpose, colSum, List.range_succ]; try ring,
      by simp [H8.bfundpar, mulScalar, transpose, colSum, List.range_succ]; try ring,
      by simp [H8.bfundpar, mulScalar, transpose, colSum, List.range_succ]; try ring⟩
    intro r hr
    simp [H8.bfundpar, mulScalar, transpose, List.range_succ] at hr
    rcases hr with rfl | rfl | rfl | rfl | rfl | rfl | rfl | rfl <;> rfl

/- ===============================================================
   Concrete instances used by the Jacobian claims
   =============================================================== -/

/-- A concrete quad topology (one Q4 cell with its four edges and corners). -/
def topoQ4 : Topology :=
  ⟨2, [[[0], [1], [2], [3]], [[0, 1], [1, 2], [2, 3], [3, 0]], [[0, 1, 2, 3]]]⟩

/-- An axisymmetric GCellSet with constant otherDimension 2, exercising the
axisymmetric Jacobian branches. -/
noncomputable def gAx : GCellSet := ⟨.Q4, true, .const 2, topoQ4⟩

/-- Counterexample to claim C2 as stated: for the manifold-2 axisymmetric
volume Jacobian the code multiplies the surface Jacobian by 2 pi r only,
not additionally by otherDimension.  With otherDimension = 2, J the 2 by 2
identity (surface Jacobian 1) and r = 1, the code yields 2 pi while the
claim demands surface times otherDimension times 2 pi r = 4 pi. -/
theorem jacobianVolumn_axisymm_counterexample :
    GCellSetManifold2.jacobianVolumn gAx [] [[1]] [[1, 0], [0, 1]] [[1, 0]]
      ≠ (GCellSetManifold2.jacobianSurface gAx [] [[1]] [[1, 0], [0, 1]] [[1, 0]]).map
          (fun S => S * gAx.otherDimensionAt [] [[1]] [[1, 0]]
            * (2 * Real.pi * xyzFirst [[1]] [[1, 0]])) := by
  have hr : xyzFirst [[1]] [[(1 : ℝ), 0]] = 1 := by
    norm_num [xyzFirst, dot, transpose, List.enum, List.enumFrom,
      List.range_succ, List.range_zero]
  have hsurf : GCellSetManifold2.jacobianSurface gAx [] [[1]] [[1, 0], [0, 1]] [[1, 0]]
      = some 1 := by
    norm_num [GCellSetManifold2.jacobianSurface, size]
  intro h
  rw [GCellSetManifold2.jacobianVolumn, hsurf, hr] at h
  simp [gAx, GCellSet.otherDimensionAt, Option.map] at h
  nlinarith [Real.pi_pos]

/-- Claim C2 (amended): for manifold-0 and manifold-1 the volume Jacobian
equals the curve Jacobian times otherDimension and, when axisymmetric,
additionally times 2 pi r (r interpolated as the first coordinate of
transpose(N) times x); for manifold-2 the non-axisymmetric volume Jacobian
is the surface Jacobian times otherDimension, but the axisymmetric one is
the surface Jacobian times 2 pi r only, without the otherDimension
factor. -/
theorem jacobianVolumn_layers (g : GCellSet) (conn : List ℤ) (N J x : List (List ℝ)) :
    (GCellSetManifold0.jacobianVolumn g conn N J x
      = GCellSetManifold0.jacobianCurve g conn N J x * g.otherDimensionAt conn N x
        * (if g.axisSymm then 2 * Real.pi * xyzFirst N x else 1))
    ∧ (GCellSetManifold1.jacobianVolumn g conn N J x
      = GCellSetManifold1.jacobianCurve g conn N J x * g.otherDimensionAt conn N x
        * (if g.axisSymm then 2 * Real.pi * xyzFirst N x else 1))
    ∧ (GCellSetManifold2.jacobianVolumn g conn N J x
      = (GCellSetManifold2.jacobianSurface g conn N J x).map
          (fun S => if g.axisSymm then S * (2 * Real.pi * xyzFirst N x)
                    else S * g.otherDimensionAt conn N x)) := by
  refine ⟨?_, ?_, ?_⟩
  · by_cases h : g.axisSymm <;>
      simp [GCellSetManifold0.jacobianVolumn, h] <;> ring
  · by_cases h : g.axisSymm <;>
      simp [GCellSetManifold1.jacobianVolumn, h] <;> ring
  · unfold GCellSetManifold2.jacobianVolumn
    congr 1
    funext S
    by_cases h : g.axisSymm <;> simp [h] <;> ring

/-- Claim C3 is about manifold-3 jacobianVolumn guarding on exactly 3
tangent columns; the source guards on the row count instead (ntan is read
from tmp[0]).  For the 3 by 2 matrix [[1,0],[0,1],[0,0]] (two tangent
columns) the code does not throw and returns a determinant value, and for
the 2 by 3 matrix [[1,0,0],[0,1,0]] (three tangent columns) the code
throws, both opposite to the claim. -/
theorem jacobianVolumn_manifold3_wrong_guard :
    (size ([[1, 0], [0, 1], [0, 0]] : List (List ℝ))).2 = 2
    ∧ (GCellSetManifold3.jacobianVolumn gAx [] [[1]]
        [[1, 0], [0, 1], [0, 0]] [[1, 0]]).isSome = true
    ∧ (size ([[1, 0, 0], [0, 1, 0]] : List (List ℝ))).2 = 3
    ∧ GCellSetManifold3.jacobianVolumn gAx [] [[1]]
        [[1, 0, 0], [0, 1, 0]] [[1, 0]] = none
    ∧ GCellSetManifold3.jacobianVolumn gAx [] [[1]]
        [[2, 0, 0], [0, 3, 0], [0, 0, 4]] [[1, 0]]
      = some (det3 [[2, 0, 0], [0, 3, 0], [0, 0, 4]]) := by
  refine ⟨rfl, rfl, rfl, rfl, rfl⟩

lemma jacobianSurface_skew (g : GCellSet) (conn : List ℤ) (N J x : List (List ℝ))
    (h2 : (size J).2 = 2) (h1 : (size J).1 ≠ 2) :
    GCellSetManifold2.jacobianSurface g conn N J x
      = some (normV (dotMV (skewmat (nthColumn J 0)) (nthColumn J 1))) := by
  simp [GCellSetManifold2.jacobianSurface, h2, h1]

lemma normV_cross (r0 r1 r2 : List ℝ) :
    normV (dotMV (skewmat (nthColumn [r0, r1, r2] 0)) (nthColumn [r0, r1, r2] 1))
      = Real.sqrt (
            (r1.getD 0 0 * r2.getD 1 0 - r2.getD 0 0 * r1.getD 1 0) ^ 2
          + (r2.getD 0 0 * r0.getD 1 0 - r0.getD 0 0 * r2.getD 1 0) ^ 2
          + (r0.getD 0 0 * r1.getD 1 0 - r1.getD 0 0 * r0.getD 1 0) ^ 2) := by
  rw [normV]
  congr 1
  simp [dotMV, skewmat, nthColumn, List.enum, List.enumFrom]
  ring

/-- Claim C7: the manifold-2 surface Jacobian with two tangent columns is
the 2 by 2 determinant when the spatial dimension equals the tangent count,
and otherwise the Euclidean norm of the skew matrix of the first column of
J applied to its second column — for three spatial dimensions explicitly
the cross product norm; any tangent count other than 2 throws. -/
theorem jacobianSurface_manifold2_cases (g : GCellSet) (conn : List ℤ)
    (N J x : List (List ℝ)) :
    ((size J).2 = 2 → (size J).1 = 2 →
      GCellSetManifold2.jacobianSurface g conn N J x
        = some ((J.getD 0 []).getD 0 0 * (J.getD 1 []).getD 1 0
            - (J.getD 1 []).getD 0 0 * (J.getD 0 []).getD 1 0))
    ∧ ((size J).2 = 2 → (size J).1 ≠ 2 →
      GCellSetManifold2.jacobianSurface g conn N J x
        = some (normV (dotMV (skewmat (nthColumn J 0)) (nthColumn J 1))))
    ∧ ((size J).2 = 2 → (size J).1 = 3 →
      GCellSetManifold2.jacobianSurface g conn N J x
        = some (Real.sqrt (
            ((J.getD 1 []).getD 0 0 * (J.getD 2 []).getD 1 0
              - (J.getD 2 []).getD 0 0 * (J.getD 1 []).getD 1 0) ^ 2
          + ((J.getD 2 []).getD 0 0 * (J.getD 0 []).getD 1 0
              - (J.getD 0 []).getD 0 0 * (J.getD 2 []).getD 1 0) ^ 2
          + ((J.getD 0 []).getD 0 0 * (J.getD 1 []).getD 1 0
              - (J.getD 1 []).getD 0 0 * (J.getD 0 []).getD 1 0) ^ 2)))
    ∧ ((size J).2 ≠ 2 →
      GCellSetManifold2.jacobianSurface g conn N J x = none) := by
  refine ⟨?_, ?_, ?_, ?_⟩
  · intro h2 h1
    simp [GCellSetManifold2.jacobianSurface, h2, h1]
  · intro h2 h1
    exact jacobianSurface_skew g conn N J x h2 h1
  · intro h2 h3
    have h1 : (size J).1 ≠ 2 := by rw [h3]; omega
    rw [jacobianSurface_skew g conn N J x h2 h1]
    have hJ3 : J.length = 3 := h3
    obtain ⟨r0, r1, r2, rfl⟩ := List.length_eq_three.mp hJ3
    rw [normV_cross]
    rfl
  · intro h2
    simp [GCellSetManifold2.jacobianSurface, h2]

/-- Witness for claim C7 at concrete Jacobian matrices: the 2 by 2 matrix
[[1,2],[3,4]] (determinant branch), the 3 by 2 matrix [[1,0],[0,1],[0,0]]
(cross product branch) and the 2 by 1 matrix [[1],[2]] (fatal branch). -/
theorem jacobianSurface_manifold2_cases_witness :
    (GCellSetManifold2.jacobianSurface gAx [] [[1]] [[1, 2], [3, 4]] [[1, 0]]
      = some ((1 : ℝ) * 4 - 3 * 2))
    ∧ (GCellSetManifold2.jacobianSurface gAx [] [[1]] [[1, 0], [0, 1], [0, 0]] [[1, 0]]
      = some (Real.sqrt (((0 : ℝ) * 0 - 0 * 1) ^ 2 + ((0 : ℝ) * 0 - 1 * 0) ^ 2
          + ((1 : ℝ) * 1 - 0 * 0) ^ 2)))
    ∧ GCellSetManifold2.jacobianSurface gAx [] [[1]] [[1], [2]] [[1, 0]] = none := by
  refine ⟨?_, ?_, ?_⟩
  · have h := (jacobianSurface_manifold2_cases gAx [] [[1]] [[1, 2], [3, 4]] [[1, 0]]).1
      rfl rfl
    rw [h]
    norm_num
  · have h := (jacobianSurface_manifold2_cases gAx [] [[1]]
      [[1, 0], [0, 1], [0, 0]] [[1, 0]]).2.2.1 rfl rfl
    rw [h]
    norm_num
  · exact (jacobianSurface_manifold2_cases gAx [] [[1]] [[1], [2]] [[1, 0]]).2.2.2
      (by decide)

/-- Claim C9: constructing a concrete GCellSet succeeds, storing the given
topology, exactly when the topology cell size at its maximal dimension
equals the variant cellSize() and the topology dimension equals the variant
dim(); any mismatch throws at construction time and no instance is
created. -/
theorem gcellset_construction_validates (v : GCellVariant) (aS : Bool)
    (od : OtherDim) (topo : Topology) :
    (GCellSet.construct v aS od topo = some ⟨v, aS, od, topo⟩
      ↔ (topo.getCellSizeInDim topo.dim = v.cellSize ∧ topo.dim = v.dim))
    ∧ (GCellSet.construct v aS od topo = none
      ↔ ¬(topo.getCellSizeInDim topo.dim = v.cellSize ∧ topo.dim = v.dim)) := by
  unfold GCellSet.construct
  by_cases h1 : topo.getCellSizeInDim topo.dim = v.cellSize <;>
    by_cases h2 : topo.dim = v.dim <;>
      simp [h1, h2]

/-- The argument handed to GCellSet.prototype.equals: a GCellSet instance,
or any other JS value, which the isa guard rejects. -/
inductive EqualsArg where
  | gcell (g : GCellSet)
  | notGCellSet

/-- Translated from GCellSet.prototype.equals: the isa guard, then the
early false returns on type()/cellSize() mismatch, on axisSymm() or
otherDimension() mismatch, and on normalized topology mismatch.  The
comparison this.otherDimension() !== other.otherDimension() invokes the
method with no arguments, so function-valued options are compared by the
value they return on undefined inputs. -/
def GCellSet.equalsProp (a : GCellSet) (other : EqualsArg) : Prop :=
  match other with
  | .notGCellSet => False
  | .gcell o =>
      ¬(a.variant.typeStr ≠ o.variant.typeStr ∨ a.variant.cellSize ≠ o.variant.cellSize)
      ∧ ¬(a.axisSymm ≠ o.axisSymm
          ∨ odCallNoArgs a.otherDimension ≠ odCallNoArgs o.otherDimension)
      ∧ a.topology.normalized = o.topology.normalized

/-- The comparison of otherDimension options the claim describes: equal
constants, or the very same function reference. -/
def odSameRef : OtherDim → OtherDim → Prop
  | .const a, .const b => a = b
  | .fn r _, .fn s _ => r = s
  | _, _ => False

/-- A function-valued otherDimension returning 2 on every input. -/
def constTwoFn : Option (List ℤ) → Option (List (List ℝ)) → Option (List (List ℝ)) → ℝ :=
  fun _ _ _ => 2

/-- Two GCellSets that agree everywhere except that their otherDimension
options are distinct function objects (different references) with the same
behaviour. -/
noncomputable def gFnA : GCellSet := ⟨.Q4, false, .fn 1 constTwoFn, topoQ4⟩

/-- Companion instance of gFnA with a different function reference. -/
noncomputable def gFnB : GCellSet := ⟨.Q4, false, .fn 2 constTwoFn, topoQ4⟩

/-- Counterexample to claim C10 as stated: equals reports these two
instances equal although their function-valued otherDimension options are
different references — equals compares the no-argument call results, not
the references. -/
theorem gcellset_equals_counterexample :
    GCellSet.equalsProp gFnA (.gcell gFnB)
    ∧ ¬ odSameRef gFnA.otherDimension gFnB.otherDimension := by
  constructor
  · refine ⟨?_, ?_, rfl⟩ <;>
      simp [gFnA, gFnB, odCallNoArgs, constTwoFn]
  · simp [gFnA, gFnB, odSameRef]

/-- Claim C10 (amended): equals returns true exactly when the argument is a
GCellSet with the same type(), the same cellSize(), the same axisSymm flag,
the same result of invoking otherDimension() with no arguments (value
comparison — not function reference identity) and equal normalized
topologies; every non-GCellSet argument yields false. -/
theorem gcellset_equals_characterization (a o : GCellSet) :
    (¬ GCellSet.equalsProp a .notGCellSet)
    ∧ (GCellSet.equalsProp a (.gcell o)
      ↔ (a.variant.typeStr = o.variant.typeStr
        ∧ a.variant.cellSize = o.variant.cellSize
        ∧ a.axisSymm = o.axisSymm
        ∧ odCallNoArgs a.otherDimension = odCallNoArgs o.otherDimension
        ∧ a.topology.normalized = o.topology.normalized)) := by
  constructor
  · simp [GCellSet.equalsProp]
  · simp [GCellSet.equalsProp, not_or, and_assoc]

/-- Witness for claim C5 at the parametric origin: the column sums of all
three variants vanish there and the first L2 derivative row has one
entry. -/
theorem bfundpar_columns_sum_zero_witness :
    colSum (L2.bfundpar [0]) 0 = 0
    ∧ colSum (Q4.bfundpar [0, 0]) 1 = 0
    ∧ colSum (H8.bfundpar [0, 0, 0]) 2 = 0
    ∧ (([-0.5] : List ℚ)).length = 1 :=
  ⟨(bfundpar_columns_sum_zero.1 0).2.2,
   (bfundpar_columns_sum_zero.2.1 0 0).2.2.2,
   (bfundpar_columns_sum_zero.2.2 0 0 0).2.2.2.2,
   (bfundpar_columns_sum_zero.1 0).2.1 [-0.5] (by norm_num [L2.bfundpar])⟩
